import Mathlib

/-!
Shallow embedding of the Family6 SaaS Google-Sheets backend
(`Code.gs` / Apps Script handlers) and of the chat relay module.

Conventions of the embedding:
* spreadsheet tables become Lean lists of records (header row omitted);
* ISO-8601 timestamp strings become `Nat` milliseconds since the epoch;
  `new Date(a) < new Date(b)` becomes `a < b`;
* the empty `reset_token_expires` cell (`''`) becomes `none : Option Nat`;
  `new Date('') < new Date()` is `NaN < now = false`, hence
  `jsDateLt none now = false`;
* JavaScript falsy checks on request strings (`!email` …) become `= ""`;
* `Math.random`-derived fresh tokens and `new Date()` become explicit
  parameters of the handlers;
* `hashPassword` (SHA-256 of `password ++ salt`) becomes an abstract
  function parameter `hash : String → String → String`.
-/

set_option autoImplicit false

namespace Family6

/-- One row of the `users` sheet (columns A–J). -/
structure User where
  email : String
  username : String
  password_hash : String
  salt : String
  created_at : Nat
  verified : Bool
  verify_token : String
  reset_token : String
  reset_token_expires : Option Nat
  updated_at : Nat
  deriving Repr, DecidableEq

/-- One row of the `sessions` sheet (columns A–D). -/
structure Session where
  token : String
  user_email : String
  created_at : Nat
  expires_at : Nat
  deriving Repr, DecidableEq

/-- One row of the `chat_history` sheet (columns A–F). -/
structure ChatRow where
  id : String
  session_id : String
  user_email : String
  message_type : String
  content : String
  created_at : Nat
  deriving Repr, DecidableEq

/-- `SESSION_DURATION_DAYS * 24 * 60 * 60 * 1000` milliseconds. -/
def SESSION_DURATION_MS : Nat := 7 * 24 * 60 * 60 * 1000

/-- `RESET_TOKEN_DURATION_HOURS * 60 * 60 * 1000` milliseconds. -/
def RESET_TOKEN_DURATION_MS : Nat := 24 * 60 * 60 * 1000

/-- `new Date(cell) < new Date(now)` where the cell may be the empty string:
`new Date('')` is `Invalid Date` and every comparison with `NaN` is false. -/
def jsDateLt : Option Nat → Nat → Bool
  | none, _ => false
  | some t, now => t < now

/-- `findUserByEmail`: linear scan of the users sheet, first row whose
column A equals `email`. -/
def findUserByEmail : List User → String → Option User
  | [], _ => none
  | u :: rest, email => if u.email = email then some u else findUserByEmail rest email

/-- `findUserByVerifyToken`: first row whose column G equals `token`. -/
def findUserByVerifyToken : List User → String → Option User
  | [], _ => none
  | u :: rest, token =>
    if u.verify_token = token then some u else findUserByVerifyToken rest token

/-- `findUserByResetToken`: first row whose column H equals `token`. -/
def findUserByResetToken : List User → String → Option User
  | [], _ => none
  | u :: rest, token =>
    if u.reset_token = token then some u else findUserByResetToken rest token

/-- `findSessionByToken`: first row of the sessions sheet whose column A
equals `token`. -/
def findSessionByToken : List Session → String → Option Session
  | [], _ => none
  | s :: rest, token => if s.token = token then some s else findSessionByToken rest token

/-- A value written into a users-sheet cell by `updateUserField`. -/
inductive FieldVal where
  | s (v : String)
  | b (v : Bool)
  | t (v : Nat)
  | te (v : Option Nat)
  deriving Repr, DecidableEq

/-- Writing one cell of a user row, mirroring the `colMap` of
`updateUserField`; a field name outside the map writes nothing. -/
def setField (u : User) (field : String) (v : FieldVal) : User :=
  match field, v with
  | "email", .s x => { u with email := x }
  | "username", .s x => { u with username := x }
  | "password_hash", .s x => { u with password_hash := x }
  | "salt", .s x => { u with salt := x }
  | "created_at", .t x => { u with created_at := x }
  | "verified", .b x => { u with verified := x }
  | "verify_token", .s x => { u with verify_token := x }
  | "reset_token", .s x => { u with reset_token := x }
  | "reset_token_expires", .te x => { u with reset_token_expires := x }
  | "updated_at", .t x => { u with updated_at := x }
  | _, _ => u

/-- `updateUserField(email, field, value)`: finds the first row whose email
matches and writes the cell; no-op when the email is absent. -/
def updateUserField : List User → String → String → FieldVal → List User
  | [], _, _, _ => []
  | u :: rest, email, field, v =>
    if u.email = email then setField u field v :: rest
    else u :: updateUserField rest email field v

/-- `deleteSession(token)`: removes the first session row whose token
matches; no-op when absent. -/
def deleteSession : List Session → String → List Session
  | [], _ => []
  | s :: rest, token => if s.token = token then rest else s :: deleteSession rest token

/-- The `user` summary object returned by login / validateSession /
getUser (`id` is the email). -/
structure UserSummary where
  email : String
  username : String
  id : String
  created_at : Nat
  deriving Repr, DecidableEq

def User.summary (u : User) : UserSummary :=
  ⟨u.email, u.username, u.email, u.created_at⟩

/-- Result of `handleLogin`. -/
inductive LoginRes where
  | err (msg : String)
  | ok (token : String) (expiresAt : Nat) (user : UserSummary)
  deriving Repr, DecidableEq

/-- `handleLogin`, returning the JSON result together with the updated
sessions sheet.  `freshToken` stands for `generateToken(64)` and `now`
for `new Date()`. -/
def handleLogin (users : List User) (sessions : List Session)
    (hash : String → String → String)
    (email password freshToken : String) (now : Nat) :
    LoginRes × List Session :=
  if email = "" ∨ password = "" then
    (.err "Email and password are required", sessions)
  else
    match findUserByEmail users email with
    | none => (.err "Invalid login credentials", sessions)
    | some user =>
      if ¬ user.verified then
        (.err "Email not confirmed. Please check your inbox.", sessions)
      else if hash password user.salt ≠ user.password_hash then
        (.err "Invalid login credentials", sessions)
      else
        let expiresAt := now + SESSION_DURATION_MS
        (.ok freshToken expiresAt user.summary,
         sessions ++ [⟨freshToken, email, now, expiresAt⟩])

/-- Result of `handleValidateSession`. -/
inductive ValidateRes where
  | err (msg : String)
  | valid (user : UserSummary)
  deriving Repr, DecidableEq

/-- `handleValidateSession`, returning the JSON result together with the
updated sessions sheet (expired rows are deleted lazily). -/
def handleValidateSession (users : List User) (sessions : List Session)
    (token : String) (now : Nat) : ValidateRes × List Session :=
  if token = "" then (.err "Token is required", sessions)
  else
    match findSessionByToken sessions token with
    | none => (.err "Invalid session", sessions)
    | some session =>
      if session.expires_at < now then
        (.err "Session expired", deleteSession sessions token)
      else
        match findUserByEmail users session.user_email with
        | none => (.err "User not found", sessions)
        | some user => (.valid user.summary, sessions)

/-- Result of `handleRequestReset`. -/
inductive ResetReqRes where
  | err (msg : String)
  | ok (message : String)
  deriving Repr, DecidableEq

/-- `handleRequestReset`: always answers with the same success message;
when the email exists it additionally writes a reset token and its
24-hour expiry into the user row (and sends mail, not modelled). -/
def handleRequestReset (users : List User) (email freshToken : String)
    (now : Nat) : ResetReqRes × List User :=
  if email = "" then (.err "Email is required", users)
  else
    let users' :=
      match findUserByEmail users email with
      | none => users
      | some _ =>
        let users₁ := updateUserField users email "reset_token" (.s freshToken)
        updateUserField users₁ email "reset_token_expires"
          (.te (some (now + RESET_TOKEN_DURATION_MS)))
    (.ok "If an account exists with this email, a password reset link has been sent.",
     users')

/-- Result of `handleResetPassword` / `handleUpdatePassword`. -/
inductive ResetRes where
  | err (msg : String)
  | ok (message : String)
  deriving Repr, DecidableEq

/-- `handleResetPassword`: token-based password reset.  `freshSalt`
stands for `generateToken(32)`. -/
def handleResetPassword (users : List User) (hash : String → String → String)
    (token newPassword freshSalt : String) (now : Nat) :
    ResetRes × List User :=
  if token = "" ∨ newPassword = "" then
    (.err "Token and new password are required", users)
  else if newPassword.length < 8 then
    (.err "Password must be at least 8 characters", users)
  else
    match findUserByResetToken users token with
    | none => (.err "Invalid or expired reset token", users)
    | some user =>
      if jsDateLt user.reset_token_expires now then
        (.err "Reset token has expired", users)
      else
        let passwordHash := hash newPassword freshSalt
        let users₁ := updateUserField users user.email "password_hash" (.s passwordHash)
        let users₂ := updateUserField users₁ user.email "salt" (.s freshSalt)
        let users₃ := updateUserField users₂ user.email "reset_token" (.s "")
        let users₄ := updateUserField users₃ user.email "reset_token_expires" (.te none)
        let users₅ := updateUserField users₄ user.email "updated_at" (.t now)
        (.ok "Password updated successfully", users₅)

/-- Outcome of `handleConfirmEmail` (the redirect chosen). -/
inductive ConfirmOutcome where
  | invalid_token
  | already_verified
  | success
  deriving Repr, DecidableEq

/-- `handleConfirmEmail`: one-shot email confirmation, returning the
redirect outcome together with the updated users sheet. -/
def handleConfirmEmail (users : List User) (token : String) (now : Nat) :
    ConfirmOutcome × List User :=
  match findUserByVerifyToken users token with
  | none => (.invalid_token, users)
  | some user =>
    if user.verified then (.already_verified, users)
    else
      let users₁ := updateUserField users user.email "verified" (.b true)
      let users₂ := updateUserField users₁ user.email "verify_token" (.s "")
      let users₃ := updateUserField users₂ user.email "updated_at" (.t now)
      (.success, users₃)

/-- JavaScript `s.substring(0, n)` on our string model. -/
def jsSubstring (s : String) (n : Nat) : String :=
  ⟨s.data.take n⟩

/-- A message object pushed into a conversation by `handleGetChatHistory`
(`{ id, type, content, created_at }`). -/
structure Msg where
  id : String
  type : String
  content : String
  created_at : Nat
  deriving Repr, DecidableEq

def ChatRow.toMsg (r : ChatRow) : Msg :=
  ⟨r.id, r.message_type, r.content, r.created_at⟩

/-- One entry of the `sessionsMap` object: session id, messages in push
order, and the `created_at` of the row that created the entry. -/
structure ConvAcc where
  sessionId : String
  messages : List Msg
  firstMessageTime : Nat
  deriving Repr, DecidableEq

/-- `sessionsMap[sessionId].messages.push(...)`, creating the entry when
absent.  JavaScript objects with string keys preserve insertion order,
so the map is an insertion-ordered association list. -/
def pushRow : List ConvAcc → ChatRow → List ConvAcc
  | [], r => [⟨r.session_id, [r.toMsg], r.created_at⟩]
  | c :: cs, r =>
    if c.sessionId = r.session_id then
      { c with messages := c.messages ++ [r.toMsg] } :: cs
    else c :: pushRow cs r

/-- The grouping loop of `handleGetChatHistory`: rows of the current user
are pushed into `sessionsMap` in sheet order. -/
def groupRows (rows : List ChatRow) (email : String) : List ConvAcc :=
  rows.foldl (fun acc r => if r.user_email = email then pushRow acc r else acc) []

/-- One element of the `conversations` array. -/
structure ConvSummary where
  sessionId : String
  title : String
  preview : String
  totalMessages : Nat
  humanMessages : Nat
  aiMessages : Nat
  messages : List Msg
  createdAt : Nat
  deriving Repr, DecidableEq

/-- `humanMessages[0]?.content?.substring(0, n) || dflt`. -/
def firstHumanCut (msgs : List Msg) (n : Nat) (dflt : String) : String :=
  match (msgs.filter (fun m => m.type = "human")).head? with
  | none => dflt
  | some m => if jsSubstring m.content n = "" then dflt else jsSubstring m.content n

def ConvAcc.summarize (c : ConvAcc) : ConvSummary :=
  let humanMessages := c.messages.filter (fun m => m.type = "human")
  let aiMessages := c.messages.filter (fun m => m.type = "ai")
  { sessionId := c.sessionId
    title := firstHumanCut c.messages 50 "Conversacion"
    preview := firstHumanCut c.messages 100 ""
    totalMessages := c.messages.length
    humanMessages := humanMessages.length
    aiMessages := aiMessages.length
    messages := c.messages
    createdAt := c.firstMessageTime }

/-- Result of `handleGetChatHistory`. -/
inductive HistoryRes where
  | err (msg : String)
  | ok (conversations : List ConvSummary) (messages : List ChatRow)
  deriving Repr, DecidableEq

/-- `conversations.sort((a, b) => new Date(b.createdAt) - new Date(a.createdAt))`:
sort most recent first (the claims below only use that this is a
permutation, so the choice of sorting algorithm is immaterial). -/
def sortConvs (convs : List ConvSummary) : List ConvSummary :=
  convs.insertionSort (fun a b => b.createdAt ≤ a.createdAt)

/-- `handleGetChatHistory`: validates the session, groups the user's rows
by `session_id`, summarizes and sorts the conversations, and also returns
the flat filtered message list. -/
def handleGetChatHistory (sessions : List Session)
    (chat : List ChatRow) (token : String) (now : Nat) : HistoryRes :=
  if token = "" then .err "Token is required"
  else
    match findSessionByToken sessions token with
    | none => .err "Invalid or expired session"
    | some session =>
      if session.expires_at < now then .err "Invalid or expired session"
      else
        let conversations := (groupRows chat session.user_email).map ConvAcc.summarize
        .ok (sortConvs conversations)
          (chat.filter (fun r => r.user_email = session.user_email))

/-- `new Date(t).toISOString().split('T')[0]` identifies the UTC calendar
day; we key days by the epoch-day number `t / 86400000`. -/
def dayKey (t : Nat) : Int :=
  ((t / 86400000 : Nat) : Int)

/-- `sessions.add(sid)` on a JavaScript `Set`: insertion-ordered,
duplicates ignored. -/
def addSession (l : List String) (sid : String) : List String :=
  if sid ∈ l then l else l ++ [sid]

/-- `messagesByDay[date] = (messagesByDay[date] || 0) + 1` on an
insertion-ordered association list. -/
def bumpDay : List (Int × Nat) → Int → List (Int × Nat)
  | [], d => [(d, 1)]
  | (k, v) :: rest, d =>
    if k = d then (k, v + 1) :: rest else (k, v) :: bumpDay rest d

/-- `messagesByDay[dateStr] || 0`. -/
def lookupDay : List (Int × Nat) → Int → Nat
  | [], _ => 0
  | (k, v) :: rest, d => if k = d then v else lookupDay rest d

/-- Accumulator of the main loop of `handleGetChatStats`. -/
structure StatsAcc where
  sessionsList : List String
  humanCount : Nat
  aiCount : Nat
  byDay : List (Int × Nat)
  deriving Repr, DecidableEq

/-- The main loop of `handleGetChatStats` over the chat sheet. -/
def statsFold (rows : List ChatRow) (email : String) : StatsAcc :=
  rows.foldl
    (fun st r =>
      if r.user_email = email then
        { sessionsList := addSession st.sessionsList r.session_id
          humanCount := if r.message_type = "human" then st.humanCount + 1 else st.humanCount
          aiCount :=
            if r.message_type ≠ "human" ∧ r.message_type = "ai" then st.aiCount + 1
            else st.aiCount
          byDay := bumpDay st.byDay (dayKey r.created_at) }
      else st)
    ⟨[], 0, 0, []⟩

/-- One entry of the `messagesByDay` (last-7-days) array. -/
structure DayBucket where
  label : String
  count : Nat
  percentage : Nat
  deriving Repr, DecidableEq

/-- Spanish weekday labels, indexed by `Date.getDay()` (0 = Sunday). -/
def dayNames : List String := ["Dom", "Lun", "Mar", "Mie", "Jue", "Vie", "Sab"]

/-- `d.getDay()` for an epoch-day number (day 0, 1970-01-01, was a
Thursday, `getDay = 4`). -/
def weekday (day : Int) : Nat :=
  ((day + 4) % 7).toNat

/-- `Math.round(count / maxCount * 100)` for non-negative integers. -/
def jsRoundPct (count maxCount : Nat) : Nat :=
  (200 * count + maxCount) / (2 * maxCount)

/-- One entry of `recentConversations`. -/
structure RecentConv where
  sessionId : String
  messageCount : Nat
  deriving Repr, DecidableEq

/-- The `stats` payload of `handleGetChatStats`. -/
structure Stats where
  totalSessions : Nat
  totalMessages : Nat
  humanMessages : Nat
  aiMessages : Nat
  messagesByDay : List DayBucket
  recentConversations : List RecentConv
  firstMessageDate : Option Nat
  lastMessageDate : Option Nat
  deriving Repr, DecidableEq

/-- Result of `handleGetChatStats`. -/
inductive StatsRes where
  | err (msg : String)
  | ok (stats : Stats)
  deriving Repr, DecidableEq

/-- The statistics computed by `handleGetChatStats` for the resolved
user: the main loop plus post-processing. -/
def chatStatsFor (chat : List ChatRow) (email : String) (now : Nat) : Stats :=
  let acc := statsFold chat email
        -- last 7 days, oldest first (loop `for (let i = 6; i >= 0; i--)`)
        let last7 := (List.range 7).map (fun (j : Nat) =>
          let day := dayKey now - (6 - (j : Int))
          (day, lookupDay acc.byDay day))
        let maxCount := last7.foldl (fun m kv => max m kv.2) 1
        let messagesByDay := last7.map (fun kv =>
          ⟨dayNames.getD (weekday kv.1) "", kv.2, jsRoundPct kv.2 maxCount⟩)
        -- `Array.from(sessions).slice(-5)` then `.reverse()` at the end
        let lastFive := acc.sessionsList.drop (acc.sessionsList.length - 5)
        let recent := (lastFive.map (fun sid =>
          RecentConv.mk sid
            ((chat.filter (fun r => r.session_id = sid ∧ r.user_email = email)).length)))
        let firstDate := chat.foldl (fun a r =>
          if r.user_email = email then
            match a with
            | none => some r.created_at
            | some f => if r.created_at < f then some r.created_at else a
          else a) none
        let lastDate := chat.foldl (fun a r =>
          if r.user_email = email then
            match a with
            | none => some r.created_at
            | some f => if f < r.created_at then some r.created_at else a
          else a) none
        { totalSessions := acc.sessionsList.length
          totalMessages := acc.humanCount + acc.aiCount
          humanMessages := acc.humanCount
          aiMessages := acc.aiCount
          messagesByDay := messagesByDay
          recentConversations := recent.reverse
          firstMessageDate := firstDate
          lastMessageDate := lastDate }

/-- `handleGetChatStats`: validates the session and computes per-user
chat statistics. -/
def handleGetChatStats (sessions : List Session) (chat : List ChatRow)
    (token : String) (now : Nat) : StatsRes :=
  if token = "" then .err "Token is required"
  else
    match findSessionByToken sessions token with
    | none => .err "Invalid or expired session"
    | some session =>
      if session.expires_at < now then .err "Invalid or expired session"
      else .ok (chatStatsFor chat session.user_email now)

/-! ## Chat relay (`sendMessage` in the chat module)

The webhook response body is split into lines; each line is fed to
`JSON.parse`.  For the embedding a line is abstracted by whether it
parses, and if so by its `type` and `content` fields (`none` = field
absent). -/

/-- A response line as seen by the per-line processing. -/
inductive JLine where
  | bad
  | parsed (type : Option String) (content : Option String)
  deriving Repr, DecidableEq

/-- JavaScript truthiness of an optional string field
(absent, `null` and `''` are falsy). -/
def jsTruthy : Option String → Bool
  | none => false
  | some s => s ≠ ""

/-- The body of the per-line `try` block: either the new accumulator, or
the exception it throws (a `SyntaxError` from `JSON.parse`, or the
`Error` thrown for a line of kind `error`). -/
def lineBody (acc : String) (l : JLine) : Except String String :=
  match l with
  | .bad => .error "SyntaxError"
  | .parsed type content =>
    if type = some "item" ∧ jsTruthy content then .ok (acc ++ content.getD "")
    else if type = some "error" then
      .error (if jsTruthy content then content.getD "" else "Error from n8n")
    else .ok acc

/-- One loop iteration: the `catch (e) { /* Skip invalid JSON lines */ }`
wraps the whole body, so every exception — including the one thrown for
an `error` line — is swallowed and the loop continues. -/
def lineStep (acc : String) (l : JLine) : String :=
  match lineBody acc l with
  | .ok a => a
  | .error _ => acc

/-- Result of `sendMessage` after a successful fetch:
`{ data: { output }, error: null }`, `{ data: <parsed JSON>, error: null }`,
or `{ data: null, error }`. -/
inductive SMResult where
  | dataOutput (output : String)
  | dataJson (j : JLine)
  | err (msg : String)
  deriving Repr, DecidableEq

/-- Processing of the webhook response body in `sendMessage`: the line
loop, then the single-line plain-JSON fallback, then the final
`{ output: fullContent || text }`. -/
def processResponse (lines : List JLine) (rawText : String) : SMResult :=
  let fullContent := lines.foldl lineStep ""
  if fullContent = "" ∧ lines.length = 1 then
    match lines with
    | [.parsed type content] => .dataJson (.parsed type content)
    | _ =>
      -- JSON.parse(lines[0]) threw: fullContent = text, output = text
      .dataOutput rawText
  else
    .dataOutput (if fullContent ≠ "" then fullContent else rawText)

/-- The `conversations` array of a chat-history result (empty on error). -/
def HistoryRes.convs : HistoryRes → List ConvSummary
  | .err _ => []
  | .ok conversations _ => conversations

/-- The `stats` payload of a chat-stats result (`none` on error). -/
def StatsRes.payload : StatsRes → Option Stats
  | .err _ => none
  | .ok stats => some stats

/-! ## Concrete fixtures for witnesses and counterexamples -/

/-- A concrete injective digest function used to instantiate the abstract
`hashPassword` parameter in witnesses: a unary length prefix (which can
never contain the separator) makes the password/salt split recoverable. -/
def pairEnc (p s : String) : String :=
  ⟨List.replicate p.length 'a' ++ ',' :: (p.data ++ s.data)⟩

/-- A verified user with a pending password reset. -/
def wUser : User :=
  { email := "a@x.com", username := "ann"
    password_hash := pairEnc "oldpass123" "s0", salt := "s0"
    created_at := 0, verified := true, verify_token := ""
    reset_token := "RT", reset_token_expires := some 1000, updated_at := 0 }

/-- A freshly signed-up, unverified user. -/
def wUserNew : User :=
  { email := "b@x.com", username := "bob"
    password_hash := "H", salt := "s1"
    created_at := 0, verified := false, verify_token := "V"
    reset_token := "", reset_token_expires := none, updated_at := 0 }

/-- A session row for `wUser` expiring at time 100. -/
def wSession : Session := ⟨"T", "a@x.com", 0, 100⟩

/-- A small chat sheet: two sessions of `a@x.com` interleaved with a row
of another user; one row has a `message_type` that is neither `human`
nor `ai`. -/
def wChat : List ChatRow :=
  [ ⟨"m1", "s1", "a@x.com", "human", "hello there", 86400000⟩
  , ⟨"m2", "s2", "a@x.com", "human", "other chat", 86400001⟩
  , ⟨"m3", "s1", "other@x.com", "human", "not mine", 86400002⟩
  , ⟨"m4", "s1", "a@x.com", "ai", "hi!", 86400003⟩
  , ⟨"m5", "s1", "a@x.com", "system", "notice", 86400004⟩ ]

end Family6

namespace Family6

/-! ## Helper lemmas about the record-store scans -/

theorem findUserByResetToken_mem {users : List User} {tok : String} {u : User}
    (h : findUserByResetToken users tok = some u) : u ∈ users := by
  induction users with
  | nil => simp [findUserByResetToken] at h
  | cons v rest ih =>
    rw [findUserByResetToken] at h
    by_cases hv : v.reset_token = tok
    · simp [hv] at h; simp [h]
    · simp [hv] at h; exact List.mem_cons_of_mem _ (ih h)

theorem findUserByVerifyToken_mem {users : List User} {tok : String} {u : User}
    (h : findUserByVerifyToken users tok = some u) : u ∈ users := by
  induction users with
  | nil => simp [findUserByVerifyToken] at h
  | cons v rest ih =>
    rw [findUserByVerifyToken] at h
    by_cases hv : v.verify_token = tok
    · simp [hv] at h; simp [h]
    · simp [hv] at h; exact List.mem_cons_of_mem _ (ih h)

theorem findUserByVerifyToken_matches {users : List User} {tok : String} {u : User}
    (h : findUserByVerifyToken users tok = some u) : u.verify_token = tok := by
  induction users with
  | nil => simp [findUserByVerifyToken] at h
  | cons v rest ih =>
    rw [findUserByVerifyToken] at h
    by_cases hv : v.verify_token = tok
    · simp [hv] at h; rw [← h]; exact hv
    · simp [hv] at h; exact ih h

theorem findUserByVerifyToken_eq_none {users : List User} {tok : String}
    (h : ∀ v ∈ users, v.verify_token ≠ tok) : findUserByVerifyToken users tok = none := by
  induction users with
  | nil => rfl
  | cons v rest ih =>
    rw [findUserByVerifyToken]
    rw [if_neg (h v (List.mem_cons_self v rest))]
    exact ih fun x hx => h x (List.mem_cons_of_mem _ hx)

/-- A member of a users table with no duplicate emails is what the
email scan finds. -/
theorem findUserByEmail_of_mem_nodup {users : List User} {u : User}
    (hmem : u ∈ users) (hnodup : (users.map User.email).Nodup) :
    findUserByEmail users u.email = some u := by
  induction users with
  | nil => simp at hmem
  | cons v rest ih =>
    rw [List.map_cons, List.nodup_cons] at hnodup
    rcases List.mem_cons.mp hmem with h | h
    · subst h; rw [findUserByEmail, if_pos rfl]
    · rw [findUserByEmail]
      have hne : v.email ≠ u.email := by
        intro he
        exact hnodup.1 (he ▸ List.mem_map_of_mem User.email h)
      rw [if_neg hne]
      exact ih h hnodup.2

/-- Decomposition of a successful email scan: the matching row together
with a prefix that does not match. -/
theorem findUserByEmail_eq_some {users : List User} {e : String} {u : User}
    (h : findUserByEmail users e = some u) :
    ∃ l₁ l₂, users = l₁ ++ u :: l₂ ∧ (∀ x ∈ l₁, x.email ≠ e) ∧ u.email = e := by
  induction users with
  | nil => simp [findUserByEmail] at h
  | cons v rest ih =>
    rw [findUserByEmail] at h
    by_cases hv : v.email = e
    · simp [hv] at h
      exact ⟨[], rest, by simp [h], by simp, h ▸ hv⟩
    · simp [hv] at h
      obtain ⟨l₁, l₂, hsplit, hpre, hu⟩ := ih h
      exact ⟨v :: l₁, l₂, by simp [hsplit], by
        intro x hx
        rcases List.mem_cons.mp hx with hx | hx
        · exact hx ▸ hv
        · exact hpre x hx, hu⟩

theorem findUserByEmail_append {l₁ l₂ : List User} {u : User} {e : String}
    (hpre : ∀ x ∈ l₁, x.email ≠ e) (hu : u.email = e) :
    findUserByEmail (l₁ ++ u :: l₂) e = some u := by
  induction l₁ with
  | nil => rw [List.nil_append, findUserByEmail, if_pos hu]
  | cons v rest ih =>
    rw [List.cons_append, findUserByEmail,
      if_neg (hpre v (List.mem_cons_self v rest))]
    exact ih fun x hx => hpre x (List.mem_cons_of_mem _ hx)

theorem updateUserField_append {l₁ l₂ : List User} {u : User} {e field : String}
    {v : FieldVal} (hpre : ∀ x ∈ l₁, x.email ≠ e) (hu : u.email = e) :
    updateUserField (l₁ ++ u :: l₂) e field v = l₁ ++ setField u field v :: l₂ := by
  induction l₁ with
  | nil => rw [List.nil_append, updateUserField, if_pos hu, List.nil_append]
  | cons w rest ih =>
    rw [List.cons_append, updateUserField,
      if_neg (hpre w (List.mem_cons_self w rest)), List.cons_append]
    rw [ih fun x hx => hpre x (List.mem_cons_of_mem _ hx)]

theorem findSessionByToken_mem {sessions : List Session} {tok : String} {s : Session}
    (h : findSessionByToken sessions tok = some s) : s ∈ sessions := by
  induction sessions with
  | nil => simp [findSessionByToken] at h
  | cons v rest ih =>
    rw [findSessionByToken] at h
    by_cases hv : v.token = tok
    · simp [hv] at h; simp [h]
    · simp [hv] at h; exact List.mem_cons_of_mem _ (ih h)

theorem findSessionByToken_of_mem_nodup {sessions : List Session} {s : Session}
    (hmem : s ∈ sessions) (hnodup : (sessions.map Session.token).Nodup) :
    findSessionByToken sessions s.token = some s := by
  induction sessions with
  | nil => simp at hmem
  | cons v rest ih =>
    rw [List.map_cons, List.nodup_cons] at hnodup
    rcases List.mem_cons.mp hmem with h | h
    · subst h; rw [findSessionByToken, if_pos rfl]
    · rw [findSessionByToken]
      have hne : v.token ≠ s.token := by
        intro he
        exact hnodup.1 (he ▸ List.mem_map_of_mem Session.token h)
      rw [if_neg hne]
      exact ih h hnodup.2

theorem findSessionByToken_eq_none {sessions : List Session} {tok : String}
    (h : ∀ x ∈ sessions, x.token ≠ tok) : findSessionByToken sessions tok = none := by
  induction sessions with
  | nil => rfl
  | cons v rest ih =>
    rw [findSessionByToken, if_neg (h v (List.mem_cons_self v rest))]
    exact ih fun x hx => h x (List.mem_cons_of_mem _ hx)

/-- Deleting by token removes exactly the row the scan finds. -/
theorem deleteSession_of_find {sessions : List Session} {tok : String} {s : Session}
    (h : findSessionByToken sessions tok = some s) :
    ∃ l₁ l₂, sessions = l₁ ++ s :: l₂ ∧ deleteSession sessions tok = l₁ ++ l₂ ∧
      (∀ x ∈ l₁, x.token ≠ tok) ∧ s.token = tok := by
  induction sessions with
  | nil => simp [findSessionByToken] at h
  | cons v rest ih =>
    rw [findSessionByToken] at h
    by_cases hv : v.token = tok
    · simp [hv] at h
      exact ⟨[], rest, by simp [h], by rw [deleteSession, if_pos (h ▸ hv)]; simp,
        by simp, h ▸ hv⟩
    · simp [hv] at h
      obtain ⟨l₁, l₂, hsplit, hdel, hpre, htok⟩ := ih h
      refine ⟨v :: l₁, l₂, by simp [hsplit], ?_, ?_, htok⟩
      · rw [deleteSession, if_neg hv, hsplit] at *
        simp [hdel]
      · intro x hx
        rcases List.mem_cons.mp hx with hx | hx
        · exact hx ▸ hv
        · exact hpre x hx

/-- Decomposition of a successful verify-token scan. -/
theorem findUserByVerifyToken_eq_some {users : List User} {tok : String} {u : User}
    (h : findUserByVerifyToken users tok = some u) :
    ∃ l₁ l₂, users = l₁ ++ u :: l₂ ∧ (∀ x ∈ l₁, x.verify_token ≠ tok) ∧
      u.verify_token = tok := by
  induction users with
  | nil => simp [findUserByVerifyToken] at h
  | cons v rest ih =>
    rw [findUserByVerifyToken] at h
    by_cases hv : v.verify_token = tok
    · simp [hv] at h
      exact ⟨[], rest, by simp [h], by simp, h ▸ hv⟩
    · simp [hv] at h
      obtain ⟨l₁, l₂, hsplit, hpre, hu⟩ := ih h
      refine ⟨v :: l₁, l₂, by simp [hsplit], ?_, hu⟩
      intro x hx
      rcases List.mem_cons.mp hx with hx | hx
      · exact hx ▸ hv
      · exact hpre x hx

/-- A unary run of `c` followed by a first occurrence of `d ≠ c`
determines the run length and the tail. -/
theorem replicate_append_cons_inj {c d : Char} (hcd : c ≠ d) {n m : Nat}
    {t₁ t₂ : List Char}
    (h : List.replicate n c ++ d :: t₁ = List.replicate m c ++ d :: t₂) :
    n = m ∧ t₁ = t₂ := by
  induction n generalizing m with
  | zero =>
    cases m with
    | zero => simpa using h
    | succ m =>
      rw [List.replicate_succ] at h
      simp at h
      exact absurd h.1.symm hcd
  | succ n ih =>
    cases m with
    | zero =>
      rw [List.replicate_succ] at h
      simp at h
      exact absurd h.1 hcd
    | succ m =>
      rw [List.replicate_succ, List.replicate_succ] at h
      simp only [List.cons_append, List.cons.injEq] at h
      obtain ⟨hnm, ht⟩ := ih h.2
      exact ⟨by omega, ht⟩

/-- The fixture digest `pairEnc` maps distinct password/salt inputs to
distinct digests. -/
theorem pairEnc_inj (p₁ s₁ p₂ s₂ : String) (h : pairEnc p₁ s₁ = pairEnc p₂ s₂) :
    p₁ = p₂ ∧ s₁ = s₂ := by
  have hd : List.replicate p₁.length 'a' ++ ',' :: (p₁.data ++ s₁.data)
      = List.replicate p₂.length 'a' ++ ',' :: (p₂.data ++ s₂.data) := by
    have := congrArg String.data h
    simpa [pairEnc] using this
  obtain ⟨hlen, htail⟩ := replicate_append_cons_inj (by decide) hd
  have hl : p₁.data.length = p₂.data.length := hlen
  obtain ⟨hp, hs⟩ := List.append_inj htail hl
  exact ⟨congrArg String.mk hp, congrArg String.mk hs⟩

/-! ## Claim theorems -/

/-- C9: every error result of `handleResetPassword` (missing token or
password, short password, unknown reset token, expired reset token)
leaves the users table completely unchanged. -/
theorem resetPassword_error_leaves_users_unchanged
    (users : List User) (hash : String → String → String)
    (token newPassword freshSalt : String) (now : Nat) (msg : String)
    (h : (handleResetPassword users hash token newPassword freshSalt now).1 = .err msg) :
    (handleResetPassword users hash token newPassword freshSalt now).2 = users := by
  by_cases h1 : token = "" ∨ newPassword = ""
  · simp [handleResetPassword, h1]
  · by_cases h2 : newPassword.length < 8
    · simp [handleResetPassword, h1, h2]
    · cases hf : findUserByResetToken users token with
      | none => simp [handleResetPassword, h1, h2, hf]
      | some u =>
        by_cases h3 : jsDateLt u.reset_token_expires now
        · simp [handleResetPassword, h1, h2, hf, h3]
        · simp [handleResetPassword, h1, h2, hf, h3] at h

/-- Witness for C9 at a concrete error input (missing token and password). -/
theorem resetPassword_error_leaves_users_unchanged_witness :
    (handleResetPassword [wUser] pairEnc "" "" "x" 0).1
      = ResetRes.err "Token and new password are required"
    ∧ (handleResetPassword [wUser] pairEnc "" "" "x" 0).2 = [wUser] :=
  ⟨by decide,
   resetPassword_error_leaves_users_unchanged [wUser] pairEnc "" "" "x" 0
     "Token and new password are required" (by decide)⟩

/-- C7: the response of `handleRequestReset` does not depend on the users
table at all — in particular it is identical whether or not a user row
with the email exists — and for a non-empty email it is the fixed success
message. -/
theorem requestReset_response_independent
    (users₁ users₂ : List User) (email t₁ t₂ : String) (n₁ n₂ : Nat) :
    (handleRequestReset users₁ email t₁ n₁).1 = (handleRequestReset users₂ email t₂ n₂).1
    ∧ (email ≠ "" →
        (handleRequestReset users₁ email t₁ n₁).1
          = .ok "If an account exists with this email, a password reset link has been sent.") := by
  by_cases he : email = "" <;> simp [handleRequestReset, he]

/-- Witness for C7: table with the user versus empty table, same response. -/
theorem requestReset_response_independent_witness :
    (handleRequestReset [wUser] "a@x.com" "T" 0).1
      = .ok "If an account exists with this email, a password reset link has been sent." :=
  ((requestReset_response_independent [wUser] [] "a@x.com" "T" "T" 0 0).2 (by decide))

/-- C5: the unknown-email failure and the password-hash-mismatch failure
of `handleLogin` produce the identical response
`Invalid login credentials`, while the unverified-email failure is
distinguishable from it. -/
theorem login_failure_uniform
    (users₁ users₂ users₃ : List User) (sessions₁ sessions₂ sessions₃ : List Session)
    (hash₁ hash₂ hash₃ : String → String → String)
    (e₁ p₁ t₁ e₂ p₂ t₂ e₃ p₃ t₃ : String) (n₁ n₂ n₃ : Nat) (u v : User)
    (he₁ : e₁ ≠ "") (hp₁ : p₁ ≠ "")
    (hf₁ : findUserByEmail users₁ e₁ = none)
    (he₂ : e₂ ≠ "") (hp₂ : p₂ ≠ "")
    (hf₂ : findUserByEmail users₂ e₂ = some u)
    (hver : u.verified = true)
    (hmis : hash₂ p₂ u.salt ≠ u.password_hash)
    (he₃ : e₃ ≠ "") (hp₃ : p₃ ≠ "")
    (hf₃ : findUserByEmail users₃ e₃ = some v) (hunver : v.verified = false) :
    (handleLogin users₁ sessions₁ hash₁ e₁ p₁ t₁ n₁).1 = .err "Invalid login credentials"
    ∧ (handleLogin users₂ sessions₂ hash₂ e₂ p₂ t₂ n₂).1 = .err "Invalid login credentials"
    ∧ (handleLogin users₁ sessions₁ hash₁ e₁ p₁ t₁ n₁).1
        = (handleLogin users₂ sessions₂ hash₂ e₂ p₂ t₂ n₂).1
    ∧ (handleLogin users₃ sessions₃ hash₃ e₃ p₃ t₃ n₃).1
        = .err "Email not confirmed. Please check your inbox."
    ∧ (handleLogin users₃ sessions₃ hash₃ e₃ p₃ t₃ n₃).1
        ≠ (handleLogin users₁ sessions₁ hash₁ e₁ p₁ t₁ n₁).1 := by
  refine ⟨?_, ?_, ?_, ?_, ?_⟩
  · simp [handleLogin, he₁, hp₁, hf₁]
  · simp [handleLogin, he₂, hp₂, hf₂, hver, hmis]
  · simp [handleLogin, he₁, hp₁, hf₁, he₂, hp₂, hf₂, hver, hmis]
  · simp [handleLogin, he₃, hp₃, hf₃, hunver]
  · simp [handleLogin, he₁, hp₁, hf₁, he₃, hp₃, hf₃, hunver]

/-- Witness for C5: empty table vs. `wUser` with a wrong password vs. the
unverified `wUserNew`. -/
theorem login_failure_uniform_witness :
    (handleLogin [] [] pairEnc "a@x.com" "oldpass123" "t" 0).1
      = .err "Invalid login credentials"
    ∧ (handleLogin [wUser] [] pairEnc "a@x.com" "wrongpass" "t" 0).1
      = .err "Invalid login credentials"
    ∧ (handleLogin [wUserNew] [] pairEnc "b@x.com" "whatever" "t" 0).1
      = .err "Email not confirmed. Please check your inbox." := by
  have h := login_failure_uniform [] [wUser] [wUserNew] [] [] [] pairEnc pairEnc pairEnc
    "a@x.com" "oldpass123" "t" "a@x.com" "wrongpass" "t" "b@x.com" "whatever" "t" 0 0 0
    wUser wUserNew (by decide) (by decide) (by decide) (by decide) (by decide) (by decide)
    (by decide) (by decide) (by decide) (by decide) (by decide) (by decide)
  exact ⟨h.1, h.2.1, h.2.2.2.1⟩

/-- C4 (code bug): a line of kind `error` does NOT abort processing and is
NOT surfaced as the error result — the `throw` sits inside the per-line
`try`, so the per-line `catch` swallows it.  At a single-error-line
response the call falls through to the plain-JSON fallback and returns
the parsed line as `data` with `error: null`; with an `item` line after
the `error` line, accumulation simply continues.  (Only the
malformed-line-skipping half of the claim holds, cf. the third
conjunct.) -/
theorem sendMessage_error_line_swallowed :
    processResponse [.parsed (some "error") (some "boom")] "rawline"
      = .dataJson (.parsed (some "error") (some "boom"))
    ∧ processResponse [.parsed (some "error") (some "boom"), .parsed (some "item") (some "X")]
        "rawtext" = .dataOutput "X"
    ∧ processResponse [.bad, .parsed (some "item") (some "X")] "rawtext"
      = .dataOutput "X" := by
  exact ⟨rfl, rfl, rfl⟩

/-- C6 (amended): sessions created by `handleLogin` satisfy
`expires_at = created_at + 7 days`, and a session row is treated as
valid by `handleValidateSession` iff `now ≤ expires_at` — i.e. at the
instant `now = expires_at` the session is still valid, contrary to the
claim's strict bound. -/
theorem session_expiry_window
    (users : List User) (sessions : List Session) (hash : String → String → String)
    (email password freshToken tok : String) (now nowv : Nat) (s : Session) (u : User)
    (htok : tok ≠ "") (hs : findSessionByToken sessions tok = some s)
    (hu : findUserByEmail users s.user_email = some u) :
    (∀ s' ∈ (handleLogin users sessions hash email password freshToken now).2,
        s' ∈ sessions ∨ s'.expires_at = s'.created_at + SESSION_DURATION_MS)
    ∧ ((handleValidateSession users sessions tok nowv).1 = .valid u.summary
        ↔ nowv ≤ s.expires_at) := by
  constructor
  · intro s' hmem
    by_cases h1 : email = "" ∨ password = ""
    · simp [handleLogin, h1] at hmem; exact Or.inl hmem
    · cases hf : findUserByEmail users email with
      | none => simp [handleLogin, h1, hf] at hmem; exact Or.inl hmem
      | some w =>
        by_cases h2 : w.verified
        · by_cases h3 : hash password w.salt = w.password_hash
          · simp [handleLogin, h1, hf, h2, h3] at hmem
            rcases hmem with hmem | hmem
            · exact Or.inl hmem
            · subst hmem; exact Or.inr rfl
          · simp [handleLogin, h1, hf, h2, h3] at hmem; exact Or.inl hmem
        · simp [handleLogin, h1, hf, h2] at hmem; exact Or.inl hmem
  · by_cases hexp : s.expires_at < nowv
    · simp only [handleValidateSession, if_neg htok, hs, if_pos hexp]
      constructor
      · intro h; exact absurd h (by simp)
      · intro h; omega
    · simp only [handleValidateSession, if_neg htok, hs, if_neg hexp, hu]
      constructor
      · intro _; omega
      · intro _; trivial

/-- Witness for C6's amended theorem at a concrete session. -/
theorem session_expiry_window_witness :
    (handleValidateSession [wUser] [wSession] "T" 50).1 = .valid wUser.summary
      ↔ 50 ≤ wSession.expires_at :=
  (session_expiry_window [wUser] [wSession] pairEnc "" "" "" "T" 0 50 wSession wUser
    (by decide) (by decide) (by decide)).2

/-- Counterexample to C6 as stated: at the instant the current time
equals `expires_at` the session is still treated as valid, so "valid iff
current time is strictly less than expires_at" is false. -/
theorem session_valid_at_exact_expiry :
    (handleValidateSession [wUser] [wSession] "T" 100).1 = .valid wUser.summary
    ∧ ¬ (100 < wSession.expires_at) := by
  decide

/-- C1: validating an expired session returns the `Session expired` error
and deletes the row (token scans find nothing afterwards, the table
shrinks by one row); a second validation with the same token reports
`Invalid session` and leaves the sessions table unchanged. -/
theorem validateSession_expired_deletes_idempotent
    (users : List User) (sessions : List Session) (s : Session) (tok : String)
    (now now₂ : Nat)
    (hmem : s ∈ sessions) (htok : s.token = tok) (hne : tok ≠ "")
    (hnodup : (sessions.map Session.token).Nodup)
    (hexp : s.expires_at < now) :
    (handleValidateSession users sessions tok now).1 = .err "Session expired"
    ∧ (handleValidateSession users sessions tok now).2 = deleteSession sessions tok
    ∧ findSessionByToken (deleteSession sessions tok) tok = none
    ∧ (deleteSession sessions tok).length + 1 = sessions.length
    ∧ (handleValidateSession users (deleteSession sessions tok) tok now₂).1
        = .err "Invalid session"
    ∧ (handleValidateSession users (deleteSession sessions tok) tok now₂).2
        = deleteSession sessions tok := by
  have hfind : findSessionByToken sessions tok = some s :=
    htok ▸ findSessionByToken_of_mem_nodup hmem hnodup
  obtain ⟨l₁, l₂, hsplit, hdel, hpre, _⟩ := deleteSession_of_find hfind
  have hnd : (l₁.map Session.token ++ s.token :: l₂.map Session.token).Nodup := by
    rw [hsplit] at hnodup; simpa using hnodup
  have hnotl₂ : s.token ∉ l₂.map Session.token :=
    (List.nodup_cons.mp hnd.of_append_right).1
  have htoks : ∀ x ∈ l₂, x.token ≠ tok := by
    intro x hx hxe
    exact hnotl₂ (by rw [htok, ← hxe]; exact List.mem_map_of_mem Session.token hx)
  have hnone : findSessionByToken (deleteSession sessions tok) tok = none := by
    rw [hdel]
    apply findSessionByToken_eq_none
    intro x hx
    rcases List.mem_append.mp hx with hx | hx
    · exact hpre x hx
    · exact htoks x hx
  refine ⟨?_, ?_, hnone, ?_, ?_, ?_⟩
  · simp [handleValidateSession, hne, hfind, hexp]
  · simp [handleValidateSession, hne, hfind, hexp]
  · rw [hdel, hsplit]; simp [List.length_append]; omega
  · simp [handleValidateSession, hne, hnone]
  · simp [handleValidateSession, hne, hnone]

/-- Counterexample to C3 as stated: after a successful confirmation the
verify token is blanked, so a second attempt with the same token is
reported `invalid_token`, not `already_verified`. -/
theorem confirmEmail_replay_not_already_verified :
    (handleConfirmEmail [wUserNew] "V" 0).1 = .success
    ∧ (handleConfirmEmail (handleConfirmEmail [wUserNew] "V" 0).2 "V" 1).1
        = .invalid_token
    ∧ (handleConfirmEmail (handleConfirmEmail [wUserNew] "V" 0).2 "V" 1).1
        ≠ .already_verified := by
  decide

/-- C3 (amended): email confirmation is one-shot — the first
`handleConfirmEmail` with a pending verify token succeeds, and a second
attempt with the same token is reported `invalid_token` (the token was
blanked on first use) and writes nothing: the users table is unchanged
by the replay. -/
theorem confirmEmail_one_shot
    (users : List User) (tok : String) (now₁ now₂ : Nat) (u : User)
    (hfind : findUserByVerifyToken users tok = some u)
    (hunver : u.verified = false)
    (htok : tok ≠ "")
    (hnodup : (users.map User.email).Nodup)
    (huniq : ∀ v ∈ users, v.verify_token = tok → v.email = u.email) :
    (handleConfirmEmail users tok now₁).1 = .success
    ∧ (handleConfirmEmail (handleConfirmEmail users tok now₁).2 tok now₂).1
        = .invalid_token
    ∧ (handleConfirmEmail (handleConfirmEmail users tok now₁).2 tok now₂).2
        = (handleConfirmEmail users tok now₁).2 := by
  obtain ⟨l₁, l₂, hsplit, hpre, -⟩ := findUserByVerifyToken_eq_some hfind
  have hnd : (l₁.map User.email ++ u.email :: l₂.map User.email).Nodup := by
    rw [hsplit] at hnodup; simpa using hnodup
  obtain ⟨-, hnd₂, hdisj⟩ := List.nodup_append.mp hnd
  have hpreE : ∀ x ∈ l₁, x.email ≠ u.email := by
    intro x hx he
    exact hdisj (List.mem_map_of_mem User.email hx) (he ▸ List.mem_cons_self _ _)
  have hl₂E : ∀ x ∈ l₂, x.email ≠ u.email := by
    intro x hx he
    exact (List.nodup_cons.mp hnd₂).1 (he ▸ List.mem_map_of_mem User.email hx)
  have e1 : updateUserField (l₁ ++ u :: l₂) u.email "verified" (FieldVal.b true)
      = l₁ ++ { u with verified := true } :: l₂ :=
    updateUserField_append hpreE rfl
  have e2 : updateUserField (l₁ ++ { u with verified := true } :: l₂) u.email
        "verify_token" (FieldVal.s "")
      = l₁ ++ { u with verified := true, verify_token := "" } :: l₂ :=
    updateUserField_append hpreE rfl
  have e3 : updateUserField (l₁ ++ { u with verified := true, verify_token := "" } :: l₂)
        u.email "updated_at" (FieldVal.t now₁)
      = l₁ ++ { u with verified := true, verify_token := "", updated_at := now₁ } :: l₂ :=
    updateUserField_append hpreE rfl
  have hstep : handleConfirmEmail users tok now₁
      = (.success,
         l₁ ++ { u with verified := true, verify_token := "", updated_at := now₁ } :: l₂) := by
    simp only [handleConfirmEmail, hfind]
    rw [if_neg (by rw [hunver]; exact Bool.false_ne_true)]
    rw [hsplit, e1, e2, e3]
  have hnone : findUserByVerifyToken
      (l₁ ++ { u with verified := true, verify_token := "", updated_at := now₁ } :: l₂)
      tok = none := by
    apply findUserByVerifyToken_eq_none
    intro x hx
    rcases List.mem_append.mp hx with hx | hx
    · exact hpre x hx
    · rcases List.mem_cons.mp hx with hx | hx
      · subst hx; simpa using fun h => htok h.symm
      · intro hxe
        exact hl₂E x hx (huniq x (by rw [hsplit]; simp [hx]) hxe)
  refine ⟨by rw [hstep], ?_, ?_⟩ <;>
    rw [hstep, handleConfirmEmail, hnone]

/-- Witness for C3's amended theorem at the concrete signed-up user. -/
theorem confirmEmail_one_shot_witness :
    (handleConfirmEmail [wUserNew] "V" 5).1 = .success
    ∧ (handleConfirmEmail (handleConfirmEmail [wUserNew] "V" 5).2 "V" 6).1
        = .invalid_token
    ∧ (handleConfirmEmail (handleConfirmEmail [wUserNew] "V" 5).2 "V" 6).2
        = (handleConfirmEmail [wUserNew] "V" 5).2 :=
  confirmEmail_one_shot [wUserNew] "V" 5 6 wUserNew (by decide) (by decide)
    (by decide) (by decide) (by decide)

/-- C2: for a verified user with a pending, unexpired reset token and a
new password of length at least 8, a successful `handleResetPassword`
followed by `handleLogin` with the new password succeeds, and a login
with the previous password returns `Invalid login credentials` — under
the claim's hypothesis that the digest function maps distinct
password/salt inputs to distinct digests. -/
theorem resetPassword_login_roundtrip
    (users : List User) (sessions₂ sessions₃ : List Session)
    (hash : String → String → String)
    (hInj : ∀ p₁ s₁ p₂ s₂, hash p₁ s₁ = hash p₂ s₂ → p₁ = p₂ ∧ s₁ = s₂)
    (u : User) (rtok oldPassword newPassword freshSalt tok₂ tok₃ : String)
    (now now₂ now₃ : Nat)
    (hfind : findUserByResetToken users rtok = some u)
    (hnodup : (users.map User.email).Nodup)
    (hver : u.verified = true)
    (_hold : u.password_hash = hash oldPassword u.salt)
    (hnexp : jsDateLt u.reset_token_expires now = false)
    (hrt : rtok ≠ "")
    (hlen : 8 ≤ newPassword.length)
    (hdiff : oldPassword ≠ newPassword)
    (holdne : oldPassword ≠ "")
    (hemail : u.email ≠ "") :
    (handleResetPassword users hash rtok newPassword freshSalt now).1
      = .ok "Password updated successfully"
    ∧ (handleLogin (handleResetPassword users hash rtok newPassword freshSalt now).2
        sessions₂ hash u.email newPassword tok₂ now₂).1
      = .ok tok₂ (now₂ + SESSION_DURATION_MS) ⟨u.email, u.username, u.email, u.created_at⟩
    ∧ (handleLogin (handleResetPassword users hash rtok newPassword freshSalt now).2
        sessions₃ hash u.email oldPassword tok₃ now₃).1
      = .err "Invalid login credentials" := by
  have hnp : newPassword ≠ "" := by
    intro h; subst h; exact absurd hlen (by decide)
  have hmem : u ∈ users := findUserByResetToken_mem hfind
  have hfe : findUserByEmail users u.email = some u :=
    findUserByEmail_of_mem_nodup hmem hnodup
  obtain ⟨l₁, l₂, hsplit, hpreE, -⟩ := findUserByEmail_eq_some hfe
  have e1 : updateUserField (l₁ ++ u :: l₂) u.email "password_hash"
        (FieldVal.s (hash newPassword freshSalt))
      = l₁ ++ { u with password_hash := hash newPassword freshSalt } :: l₂ :=
    updateUserField_append hpreE rfl
  have e2 : updateUserField
        (l₁ ++ { u with password_hash := hash newPassword freshSalt } :: l₂)
        u.email "salt" (FieldVal.s freshSalt)
      = l₁ ++ { u with password_hash := hash newPassword freshSalt, salt := freshSalt } :: l₂ :=
    updateUserField_append hpreE rfl
  have e3 : updateUserField
        (l₁ ++ { u with password_hash := hash newPassword freshSalt, salt := freshSalt } :: l₂)
        u.email "reset_token" (FieldVal.s "")
      = l₁ ++ { u with password_hash := hash newPassword freshSalt, salt := freshSalt, reset_token := "" } :: l₂ :=
    updateUserField_append hpreE rfl
  have e4 : updateUserField
        (l₁ ++ { u with password_hash := hash newPassword freshSalt, salt := freshSalt, reset_token := "" } :: l₂)
        u.email "reset_token_expires" (FieldVal.te none)
      = l₁ ++ { u with password_hash := hash newPassword freshSalt, salt := freshSalt, reset_token := "", reset_token_expires := none } :: l₂ :=
    updateUserField_append hpreE rfl
  have e5 : updateUserField
        (l₁ ++ { u with password_hash := hash newPassword freshSalt, salt := freshSalt, reset_token := "", reset_token_expires := none } :: l₂)
        u.email "updated_at" (FieldVal.t now)
      = l₁ ++ { u with password_hash := hash newPassword freshSalt, salt := freshSalt, reset_token := "", reset_token_expires := none, updated_at := now } :: l₂ :=
    updateUserField_append hpreE rfl
  have h1 : ¬(rtok = "" ∨ newPassword = "") := by
    push_neg; exact ⟨hrt, hnp⟩
  have h2 : ¬(newPassword.length < 8) := by omega
  have hrp : handleResetPassword users hash rtok newPassword freshSalt now
      = (.ok "Password updated successfully",
         l₁ ++ { u with password_hash := hash newPassword freshSalt, salt := freshSalt, reset_token := "", reset_token_expires := none, updated_at := now } :: l₂) := by
    simp only [handleResetPassword, if_neg h1, if_neg h2, hfind, hnexp,
      Bool.false_eq_true, if_false]
    rw [hsplit, e1, e2, e3, e4, e5]
  have hfe' : findUserByEmail
      (l₁ ++ { u with password_hash := hash newPassword freshSalt, salt := freshSalt, reset_token := "", reset_token_expires := none, updated_at := now } :: l₂)
      u.email = some { u with password_hash := hash newPassword freshSalt, salt := freshSalt, reset_token := "", reset_token_expires := none, updated_at := now } :=
    findUserByEmail_append hpreE rfl
  have hc2 : ¬(u.email = "" ∨ newPassword = "") := by
    push_neg; exact ⟨hemail, hnp⟩
  have hc3 : ¬(u.email = "" ∨ oldPassword = "") := by
    push_neg; exact ⟨hemail, holdne⟩
  have hne : hash oldPassword freshSalt ≠ hash newPassword freshSalt :=
    fun h => hdiff (hInj _ _ _ _ h).1
  refine ⟨by rw [hrp], ?_, ?_⟩
  · rw [hrp]
    simp only [handleLogin, if_neg hc2, hfe']
    rw [if_neg (by show ¬¬(u.verified = true); rw [hver]; simp)]
    rw [if_neg (by show ¬¬(hash newPassword freshSalt = hash newPassword freshSalt); simp)]
    rfl
  · rw [hrp]
    simp only [handleLogin, if_neg hc3, hfe']
    rw [if_neg (by show ¬¬(u.verified = true); rw [hver]; simp)]
    rw [if_pos (by exact hne)]

/-- Witness for C2: concrete reset of `wUser`'s password followed by the
two logins, with the injective `pairEnc` as the digest function. -/
theorem resetPassword_login_roundtrip_witness :
    (handleResetPassword [wUser] pairEnc "RT" "newpass456" "s9" 500).1
      = .ok "Password updated successfully"
    ∧ (handleLogin (handleResetPassword [wUser] pairEnc "RT" "newpass456" "s9" 500).2
        [] pairEnc "a@x.com" "newpass456" "t2" 600).1
      = .ok "t2" (600 + SESSION_DURATION_MS) ⟨"a@x.com", "ann", "a@x.com", 0⟩
    ∧ (handleLogin (handleResetPassword [wUser] pairEnc "RT" "newpass456" "s9" 500).2
        [] pairEnc "a@x.com" "oldpass123" "t3" 700).1
      = .err "Invalid login credentials" :=
  resetPassword_login_roundtrip [wUser] [] [] pairEnc pairEnc_inj wUser
    "RT" "oldpass123" "newpass456" "s9" "t2" "t3" 500 600 700
    (by decide) (by decide) (by decide) (by decide) (by decide) (by decide)
    (by decide) (by decide) (by decide) (by decide)

/-- Length bound for the JavaScript substring. -/
theorem jsSubstring_length_le (s : String) (n : Nat) : (jsSubstring s n).length ≤ n := by
  show (s.data.take n).length ≤ n
  simp [List.length_take]

/-- The preview/title cut never exceeds the requested width when the
default is empty. -/
theorem firstHumanCut_length_le (msgs : List Msg) (n : Nat) :
    (firstHumanCut msgs n "").length ≤ n := by
  unfold firstHumanCut
  split
  · simp
  · split
    · simp
    · exact jsSubstring_length_le _ _

/-- Invariant step of one `sessionsMap` insertion: messages of the pushed
session get the new message appended, all other sessions are untouched,
keys stay distinct, and the key set gains at most the new session id. -/
theorem pushRow_invariant (F : String → List Msg) (r : ChatRow)
    (acc : List ConvAcc)
    (hmsg : ∀ c ∈ acc, c.messages = F c.sessionId)
    (hnd : (acc.map ConvAcc.sessionId).Nodup)
    (hnew : r.session_id ∉ acc.map ConvAcc.sessionId → F r.session_id = []) :
    (∀ c ∈ pushRow acc r,
       c.messages = if c.sessionId = r.session_id
         then F c.sessionId ++ [r.toMsg] else F c.sessionId)
    ∧ ((pushRow acc r).map ConvAcc.sessionId).Nodup
    ∧ ∀ sid, sid ∈ (pushRow acc r).map ConvAcc.sessionId ↔
        sid = r.session_id ∨ sid ∈ acc.map ConvAcc.sessionId := by
  induction acc with
  | nil =>
    refine ⟨?_, by simp [pushRow], by simp [pushRow]⟩
    intro c hc
    simp only [pushRow, List.mem_singleton] at hc
    subst hc
    simp [hnew (by simp)]
  | cons a as ih =>
    rw [List.map_cons, List.nodup_cons] at hnd
    by_cases ha : a.sessionId = r.session_id
    · rw [pushRow, if_pos ha]
      refine ⟨?_, ?_, ?_⟩
      · intro c hc
        rcases List.mem_cons.mp hc with hc | hc
        · subst hc
          simp only
          rw [if_pos ha, hmsg a (List.mem_cons_self a as)]
        · have hcs : c.sessionId ≠ r.session_id := by
            intro he
            exact hnd.1 (by
              rw [ha, ← he]
              exact List.mem_map_of_mem ConvAcc.sessionId hc)
          rw [if_neg hcs]
          exact hmsg c (List.mem_cons_of_mem _ hc)
      · simpa using And.intro hnd.1 hnd.2
      · intro sid
        simp only [List.map_cons, List.mem_cons]
        constructor
        · rintro (h | h)
          · exact Or.inr (Or.inl h)
          · exact Or.inr (Or.inr h)
        · rintro (h | h | h)
          · exact Or.inl (h.trans ha.symm)
          · exact Or.inl h
          · exact Or.inr h
    · rw [pushRow, if_neg ha]
      have ihh := ih (fun c hc => hmsg c (List.mem_cons_of_mem _ hc)) hnd.2
        (fun hn => hnew (by
          simp only [List.map_cons, List.mem_cons]
          rintro (h | h)
          · exact ha h.symm
          · exact hn h))
      refine ⟨?_, ?_, ?_⟩
      · intro c hc
        rcases List.mem_cons.mp hc with hc | hc
        · subst hc
          rw [if_neg ha]
          exact hmsg c (List.mem_cons_self c as)
        · exact ihh.1 c hc
      · rw [List.map_cons, List.nodup_cons]
        refine ⟨?_, ihh.2.1⟩
        intro hmem
        rcases (ihh.2.2 a.sessionId).mp hmem with h | h
        · exact ha h
        · exact hnd.1 h
      · intro sid
        rw [List.map_cons, List.mem_cons, ihh.2.2 sid, List.map_cons, List.mem_cons]
        tauto

/-- The grouping loop of `handleGetChatHistory`: every entry of
`sessionsMap` holds exactly the current user's rows with that session id,
in sheet order; keys are distinct and are exactly the session ids of the
user's rows. -/
theorem groupRows_spec (email : String) (rows : List ChatRow) :
    (∀ c ∈ groupRows rows email,
       c.messages = ((rows.filter
         (fun x => x.user_email = email ∧ x.session_id = c.sessionId)).map ChatRow.toMsg))
    ∧ ((groupRows rows email).map ConvAcc.sessionId).Nodup
    ∧ ∀ sid, sid ∈ (groupRows rows email).map ConvAcc.sessionId ↔
        ∃ x ∈ rows, x.user_email = email ∧ x.session_id = sid := by
  induction rows using List.reverseRecOn with
  | nil => simp [groupRows]
  | append_singleton rows r ih =>
    have hG : groupRows (rows ++ [r]) email
        = if r.user_email = email then pushRow (groupRows rows email) r
          else groupRows rows email := by
      simp [groupRows, List.foldl_append]
    by_cases hr : r.user_email = email
    · rw [hG, if_pos hr]
      have key := pushRow_invariant
        (fun sid => ((rows.filter
          (fun x => x.user_email = email ∧ x.session_id = sid)).map ChatRow.toMsg))
        r (groupRows rows email) ih.1 ih.2.1
        (fun hn => by
          have hfil : rows.filter
              (fun x => x.user_email = email ∧ x.session_id = r.session_id) = [] := by
            rw [List.filter_eq_nil_iff]
            intro a ha hpa
            simp only [decide_eq_true_eq] at hpa
            exact hn ((ih.2.2 r.session_id).mpr ⟨a, ha, hpa.1, hpa.2⟩)
          show List.map ChatRow.toMsg (List.filter
            (fun x => decide (x.user_email = email ∧ x.session_id = r.session_id)) rows) = []
          rw [hfil, List.map_nil])
      refine ⟨?_, key.2.1, ?_⟩
      · intro c hc
        have h1 := key.1 c hc
        rw [List.filter_append, List.map_append]
        by_cases hcs : c.sessionId = r.session_id
        · rw [if_pos hcs] at h1
          beta_reduce at h1
          rw [h1]
          congr 1
          simp [hcs, hr]
        · rw [if_neg hcs] at h1
          beta_reduce at h1
          rw [h1]
          have : List.filter
              (fun x => decide (x.user_email = email ∧ x.session_id = c.sessionId)) [r]
              = [] := by
            simp [hr]
            exact fun h => hcs h.symm
          rw [this]
          simp
      · intro sid
        rw [key.2.2 sid, ih.2.2 sid]
        constructor
        · rintro (h | ⟨x, hx, hxe, hxs⟩)
          · exact ⟨r, by simp, hr, h.symm⟩
          · exact ⟨x, by simp [hx], hxe, hxs⟩
        · rintro ⟨x, hx, hxe, hxs⟩
          rcases List.mem_append.mp hx with hx | hx
          · exact Or.inr ⟨x, hx, hxe, hxs⟩
          · rw [List.mem_singleton] at hx
            subst hx
            exact Or.inl hxs.symm
    · rw [hG, if_neg hr]
      refine ⟨?_, ih.2.1, ?_⟩
      · intro c hc
        rw [List.filter_append]
        have : List.filter
            (fun x => decide (x.user_email = email ∧ x.session_id = c.sessionId)) [r]
            = [] := by simp [hr]
        rw [this, List.append_nil]
        exact ih.1 c hc
      · intro sid
        rw [ih.2.2 sid]
        constructor
        · rintro ⟨x, hx, hxe, hxs⟩
          exact ⟨x, by simp [hx], hxe, hxs⟩
        · rintro ⟨x, hx, hxe, hxs⟩
          rcases List.mem_append.mp hx with hx | hx
          · exact ⟨x, hx, hxe, hxs⟩
          · rw [List.mem_singleton] at hx
            subst hx
            exact absurd hxe hr

/-- C8: for an authenticated user, every conversation returned by
`handleGetChatHistory` contains exactly that user's rows with its session
id, in sheet (insertion) order, no session id appears in two
conversations, every preview is at most 100 characters, and — the
completeness direction — a session id has a conversation iff the user
has a stored row with it, so no user message is dropped: each one
appears in the (unique) conversation of its session id. -/
theorem chatHistory_grouping
    (sessions : List Session) (chat : List ChatRow) (token : String) (now : Nat)
    (s : Session)
    (htok : token ≠ "") (hfind : findSessionByToken sessions token = some s)
    (hnexp : ¬ (s.expires_at < now)) :
    (∀ c ∈ (handleGetChatHistory sessions chat token now).convs,
        c.messages = ((chat.filter
          (fun x => x.user_email = s.user_email ∧ x.session_id = c.sessionId)).map ChatRow.toMsg)
        ∧ c.preview.length ≤ 100)
    ∧ ((handleGetChatHistory sessions chat token now).convs.map
        ConvSummary.sessionId).Nodup
    ∧ ∀ sid, (∃ x ∈ chat, x.user_email = s.user_email ∧ x.session_id = sid)
        ↔ ∃ c ∈ (handleGetChatHistory sessions chat token now).convs,
            c.sessionId = sid := by
  have hres : (handleGetChatHistory sessions chat token now).convs
      = sortConvs ((groupRows chat s.user_email).map ConvAcc.summarize) := by
    simp [handleGetChatHistory, htok, hfind, hnexp, HistoryRes.convs]
  have hperm : List.Perm
      (sortConvs ((groupRows chat s.user_email).map ConvAcc.summarize))
      ((groupRows chat s.user_email).map ConvAcc.summarize) :=
    List.perm_insertionSort _ _
  have hmapeq : ((groupRows chat s.user_email).map ConvAcc.summarize).map
      ConvSummary.sessionId = (groupRows chat s.user_email).map ConvAcc.sessionId := by
    rw [List.map_map]; rfl
  obtain ⟨hmsgs, hnd, hcomp⟩ := groupRows_spec s.user_email chat
  rw [hres]
  refine ⟨?_, ?_, ?_⟩
  · intro c hc
    have hc' : c ∈ (groupRows chat s.user_email).map ConvAcc.summarize :=
      hperm.mem_iff.mp hc
    obtain ⟨a, ha, rfl⟩ := List.mem_map.mp hc'
    refine ⟨?_, ?_⟩
    · simpa [ConvAcc.summarize] using hmsgs a ha
    · simpa [ConvAcc.summarize] using firstHumanCut_length_le a.messages 100
  · exact ((hperm.map ConvSummary.sessionId).nodup_iff).mpr (hmapeq ▸ hnd)
  · intro sid
    constructor
    · intro hex
      have h1 : sid ∈ (groupRows chat s.user_email).map ConvAcc.sessionId :=
        (hcomp sid).mpr hex
      have h2 : sid ∈ ((groupRows chat s.user_email).map ConvAcc.summarize).map
          ConvSummary.sessionId := by
        rw [hmapeq]; exact h1
      have h3 : sid ∈ (sortConvs ((groupRows chat s.user_email).map
          ConvAcc.summarize)).map ConvSummary.sessionId :=
        ((hperm.map ConvSummary.sessionId).mem_iff).mpr h2
      exact List.mem_map.mp h3
    · rintro ⟨c, hc, hcs⟩
      have h3 : sid ∈ (sortConvs ((groupRows chat s.user_email).map
          ConvAcc.summarize)).map ConvSummary.sessionId :=
        List.mem_map.mpr ⟨c, hc, hcs⟩
      have h2 := ((hperm.map ConvSummary.sessionId).mem_iff).mp h3
      rw [hmapeq] at h2
      exact (hcomp sid).mp h2

/-- Witness for C8 on the concrete interleaved chat sheet. -/
theorem chatHistory_grouping_witness :
    (∀ c ∈ (handleGetChatHistory [wSession] wChat "T" 50).convs,
        c.messages = ((wChat.filter
          (fun x => x.user_email = "a@x.com" ∧ x.session_id = c.sessionId)).map ChatRow.toMsg)
        ∧ c.preview.length ≤ 100)
    ∧ ((handleGetChatHistory [wSession] wChat "T" 50).convs.map
        ConvSummary.sessionId).Nodup
    ∧ ∀ sid, (∃ x ∈ wChat, x.user_email = "a@x.com" ∧ x.session_id = sid)
        ↔ ∃ c ∈ (handleGetChatHistory [wSession] wChat "T" 50).convs,
            c.sessionId = sid :=
  chatHistory_grouping [wSession] wChat "T" 50 wSession (by decide) (by decide)
    (by decide)


/-- Membership in the insertion-ordered session set. -/
theorem addSession_mem (l : List String) (sid x : String) :
    x ∈ addSession l sid ↔ x = sid ∨ x ∈ l := by
  unfold addSession
  by_cases h : sid ∈ l
  · rw [if_pos h]
    constructor
    · exact Or.inr
    · rintro (rfl | hx)
      · exact h
      · exact hx
  · rw [if_neg h]
    simp [or_comm]

/-- Adding to the session set preserves distinctness. -/
theorem addSession_nodup (l : List String) (sid : String) (h : l.Nodup) :
    (addSession l sid).Nodup := by
  unfold addSession
  by_cases hs : sid ∈ l
  · rwa [if_pos hs]
  · rw [if_neg hs, List.nodup_append]
    refine ⟨h, by simp, ?_⟩
    intro a ha ha'
    rw [List.mem_singleton] at ha'
    subst ha'
    exact hs ha

/-- Incrementing one day of the histogram map. -/
theorem lookupDay_bumpDay (m : List (Int × Nat)) (d₀ d : Int) :
    lookupDay (bumpDay m d₀) d
      = if d = d₀ then lookupDay m d + 1 else lookupDay m d := by
  induction m with
  | nil =>
    by_cases h : d = d₀
    · subst h; simp [bumpDay, lookupDay]
    · simp only [bumpDay, lookupDay]
      rw [if_neg (fun hh : d₀ = d => h hh.symm), if_neg h]
  | cons kv rest ih =>
    obtain ⟨k, v⟩ := kv
    by_cases hk : k = d₀
    · subst hk
      by_cases hd : k = d
      · subst hd; simp [bumpDay, lookupDay]
      · rw [bumpDay, if_pos rfl]
        rw [lookupDay, if_neg hd, lookupDay, if_neg hd,
          if_neg (fun hh : d = k => hd hh.symm)]
    · rw [bumpDay, if_neg hk]
      by_cases hd : k = d
      · subst hd
        rw [lookupDay, if_pos rfl, lookupDay, if_pos rfl,
          if_neg (fun hh : k = d₀ => hk hh)]
      · rw [lookupDay, if_neg hd, ih, lookupDay, if_neg hd]

/-- The one-pass statistics loop computes the four spec quantities:
human and assistant message counts over the user's rows, the distinct
session-id set (all message types included), and the per-day message
histogram (all message types included). -/
theorem statsFold_spec (email : String) (rows : List ChatRow) :
    (statsFold rows email).humanCount
      = (rows.filter (fun r => r.user_email = email ∧ r.message_type = "human")).length
    ∧ (statsFold rows email).aiCount
      = (rows.filter (fun r => r.user_email = email ∧ r.message_type = "ai")).length
    ∧ (statsFold rows email).sessionsList.Nodup
    ∧ (∀ sid, sid ∈ (statsFold rows email).sessionsList ↔
        ∃ x ∈ rows, x.user_email = email ∧ x.session_id = sid)
    ∧ ∀ d, lookupDay (statsFold rows email).byDay d
        = (rows.filter (fun r => r.user_email = email ∧ dayKey r.created_at = d)).length := by
  induction rows using List.reverseRecOn with
  | nil => simp [statsFold, lookupDay]
  | append_singleton rows r ih =>
    have hstep : statsFold (rows ++ [r]) email
        = if r.user_email = email then
            { sessionsList := addSession (statsFold rows email).sessionsList r.session_id
              humanCount := if r.message_type = "human"
                then (statsFold rows email).humanCount + 1
                else (statsFold rows email).humanCount
              aiCount := if r.message_type ≠ "human" ∧ r.message_type = "ai"
                then (statsFold rows email).aiCount + 1
                else (statsFold rows email).aiCount
              byDay := bumpDay (statsFold rows email).byDay (dayKey r.created_at) }
          else statsFold rows email := by
      simp only [statsFold, List.foldl_append, List.foldl_cons, List.foldl_nil]
    by_cases hr : r.user_email = email
    · rw [hstep, if_pos hr]
      refine ⟨?_, ?_, ?_, ?_, ?_⟩
      · by_cases hh : r.message_type = "human" <;>
          simp [List.filter_append, hr, hh, ih.1]
      · by_cases hai : r.message_type = "ai"
        · have hnh : r.message_type ≠ "human" := by rw [hai]; decide
          simp [List.filter_append, hr, hai, hnh, ih.2.1]
        · have : ¬(r.message_type ≠ "human" ∧ r.message_type = "ai") := by
            rintro ⟨-, h⟩; exact hai h
          simp [List.filter_append, hr, hai, this, ih.2.1]
      · exact addSession_nodup _ _ ih.2.2.1
      · intro sid
        rw [addSession_mem]
        constructor
        · rintro (rfl | h)
          · exact ⟨r, by simp, hr, rfl⟩
          · obtain ⟨x, hx, hxe, hxs⟩ := (ih.2.2.2.1 sid).mp h
            exact ⟨x, by simp [hx], hxe, hxs⟩
        · rintro ⟨x, hx, hxe, hxs⟩
          rcases List.mem_append.mp hx with hx | hx
          · exact Or.inr ((ih.2.2.2.1 sid).mpr ⟨x, hx, hxe, hxs⟩)
          · rw [List.mem_singleton] at hx
            subst hx
            exact Or.inl hxs.symm
      · intro d
        rw [lookupDay_bumpDay]
        by_cases hd : d = dayKey r.created_at
        · subst hd
          simp [List.filter_append, hr, ih.2.2.2.2]
        · have hnd2 : ¬ dayKey r.created_at = d := fun hh => hd hh.symm
          simp [List.filter_append, hr, hnd2, ih.2.2.2.2 d, hd]
    · rw [hstep, if_neg hr]
      refine ⟨?_, ?_, ih.2.2.1, ?_, ?_⟩
      · simp [List.filter_append, hr, ih.1]
      · simp [List.filter_append, hr, ih.2.1]
      · intro sid
        rw [ih.2.2.2.1 sid]
        constructor
        · rintro ⟨x, hx, hxe, hxs⟩
          exact ⟨x, by simp [hx], hxe, hxs⟩
        · rintro ⟨x, hx, hxe, hxs⟩
          rcases List.mem_append.mp hx with hx | hx
          · exact ⟨x, hx, hxe, hxs⟩
          · rw [List.mem_singleton] at hx
            subst hx
            exact absurd hxe hr
      · intro d
        simp [List.filter_append, hr, ih.2.2.2.2 d]

/-- C10: for an authenticated user `handleGetChatStats` reports
`totalMessages = humanMessages + aiMessages`, where the two counts are
exactly the user's rows of type `human` resp. `ai` — rows of any other
type are excluded from all three counts — while the distinct-session
count and the daily histogram still count rows of every type. -/
theorem chatStats_counts
    (sessions : List Session) (chat : List ChatRow) (token : String) (now : Nat)
    (s : Session)
    (htok : token ≠ "") (hfind : findSessionByToken sessions token = some s)
    (hnexp : ¬ (s.expires_at < now)) :
    handleGetChatStats sessions chat token now = .ok (chatStatsFor chat s.user_email now)
    ∧ (chatStatsFor chat s.user_email now).totalMessages
        = (chatStatsFor chat s.user_email now).humanMessages
          + (chatStatsFor chat s.user_email now).aiMessages
    ∧ (chatStatsFor chat s.user_email now).humanMessages
        = (chat.filter (fun r => r.user_email = s.user_email ∧ r.message_type = "human")).length
    ∧ (chatStatsFor chat s.user_email now).aiMessages
        = (chat.filter (fun r => r.user_email = s.user_email ∧ r.message_type = "ai")).length
    ∧ (chatStatsFor chat s.user_email now).totalSessions
        = ((chat.filter (fun r => r.user_email = s.user_email)).map ChatRow.session_id).dedup.length
    ∧ ∀ j : Nat, j < 7 →
        ((chatStatsFor chat s.user_email now).messagesByDay.getD j ⟨"", 0, 0⟩).count
          = (chat.filter (fun r => r.user_email = s.user_email
              ∧ dayKey r.created_at = dayKey now - 6 + (j : Int))).length := by
  obtain ⟨hhum, hai, hnd, hmem, hday⟩ := statsFold_spec s.user_email chat
  refine ⟨?_, rfl, hhum, hai, ?_, ?_⟩
  · simp [handleGetChatStats, htok, hfind, hnexp]
  · -- distinct sessions: same members as the mapped filtered list
    have hiff : ∀ sid, sid ∈ (statsFold chat s.user_email).sessionsList ↔
        sid ∈ (chat.filter (fun r => r.user_email = s.user_email)).map ChatRow.session_id := by
      intro sid
      rw [hmem sid]
      simp [List.mem_filter, List.mem_map]
      constructor
      · rintro ⟨x, hx, hxe, hxs⟩; exact ⟨x, ⟨hx, hxe⟩, hxs⟩
      · rintro ⟨x, ⟨hx, hxe⟩, hxs⟩; exact ⟨x, hx, hxe, hxs⟩
    have hfin : (statsFold chat s.user_email).sessionsList.toFinset
        = ((chat.filter (fun r => r.user_email = s.user_email)).map ChatRow.session_id).toFinset := by
      ext sid
      simp only [List.mem_toFinset]
      exact hiff sid
    show (statsFold chat s.user_email).sessionsList.length = _
    rw [← List.dedup_eq_self.mpr hnd, ← List.card_toFinset, hfin, List.card_toFinset]
  · intro j hj
    have harith : dayKey now - (6 - (j : Int)) = dayKey now - 6 + (j : Int) := by ring
    have hkey : ((chatStatsFor chat s.user_email now).messagesByDay.getD j ⟨"", 0, 0⟩).count
        = lookupDay (statsFold chat s.user_email).byDay (dayKey now - (6 - (j : Int))) := by
      simp only [chatStatsFor]
      simp [List.getD_eq_getElem?_getD, List.getElem?_map, List.getElem?_range, hj]
    rw [hkey, harith]
    exact hday _

/-- Witness for C10 on the concrete mixed-type chat sheet. -/
theorem chatStats_counts_witness :
    handleGetChatStats [wSession] wChat "T" 50 = .ok (chatStatsFor wChat "a@x.com" 50)
    ∧ (chatStatsFor wChat "a@x.com" 50).totalMessages
        = (chatStatsFor wChat "a@x.com" 50).humanMessages
          + (chatStatsFor wChat "a@x.com" 50).aiMessages
    ∧ ((chatStatsFor wChat "a@x.com" 50).messagesByDay.getD 0 ⟨"", 0, 0⟩).count
        = (wChat.filter (fun r => r.user_email = "a@x.com"
            ∧ dayKey r.created_at = dayKey 50 - 6 + (0 : Int))).length := by
  have h := chatStats_counts [wSession] wChat "T" 50 wSession (by decide) (by decide)
    (by decide)
  exact ⟨h.1, h.2.1, h.2.2.2.2.2 0 (by decide)⟩


/-- Witness for C1 at a concrete expired session. -/
theorem validateSession_expired_deletes_idempotent_witness :
    (handleValidateSession [wUser] [wSession] "T" 200).1 = .err "Session expired"
    ∧ (handleValidateSession [wUser] (deleteSession [wSession] "T") "T" 300).1
        = .err "Invalid session" := by
  have h := validateSession_expired_deletes_idempotent [wUser] [wSession] wSession "T"
    200 300 (by decide) (by decide) (by decide) (by decide) (by decide)
  exact ⟨h.1, h.2.2.2.2.1⟩

end Family6
